import Mathlib

set_option maxRecDepth 8000

/-!
Shallow embedding of the xbnet radio I/O core (src/src), with theorems
checking the natural-language specification against it.

Bytes are modelled as `Nat`; where the Rust source relies on machine-word
wrap-around, the embedding writes `% 256` (or `% 2^16`, `% 2^64`) explicitly.
Fallible operations return `Except`/`Option`; a Rust `panic!`/`unwrap` failure
is modelled as `none`.
-/

/-- Big-endian byte list of a 16-bit value, as written by `put_u16`. -/
def be16 (x : Nat) : List Nat := [x / 256 % 256, x % 256]

/-- Big-endian byte list of a 64-bit value, as written by `put_u64`. -/
def be64 (x : Nat) : List Nat :=
  [x / 2 ^ 56 % 256, x / 2 ^ 48 % 256, x / 2 ^ 40 % 256, x / 2 ^ 32 % 256,
   x / 2 ^ 24 % 256, x / 2 ^ 16 % 256, x / 2 ^ 8 % 256, x % 256]

/-- `XBDestAddr` from src/src/xbpacket.rs. -/
inductive XBDestAddr where
  | U16 (dest : Nat)
  | U64 (dest : Nat)
deriving DecidableEq

/-- `TXGenError` from src/src/xbpacket.rs. -/
inductive TXGenError where
  | InvalidLen
deriving DecidableEq

/-- `XBTXRequest` from src/src/xbpacket.rs: a frame type 0x10 transmit request. -/
structure XBTXRequest where
  frame_id : Nat
  dest_addr : XBDestAddr
  broadcast_radius : Nat
  transmit_options : Nat
  payload : List Nat
deriving DecidableEq

/-- `xbchecksum` from src/src/xbpacket.rs: `0xff - (sum as u8)`.
The `as u8` cast is the sum modulo 256, so the result never underflows. -/
def xbchecksum (data : List Nat) : Nat := 0xff - data.sum % 256

/-- The inner frame built inside `XBTXRequest::serialize` (src/src/xbpacket.rs
lines 93-111): frame type 0x10, frame id, destination (64-bit plus 16-bit
field), broadcast radius, transmit options, then the payload. -/
def innerBytes (r : XBTXRequest) : List Nat :=
  [0x10, r.frame_id] ++
    (match r.dest_addr with
     | .U16 dest => be64 0xFFFFFFFFFFFFFFFF ++ be16 dest
     | .U64 dest => be64 dest ++ be16 0xFFFE) ++
    [r.broadcast_radius, r.transmit_options] ++ r.payload

/-- `XBTXRequest::serialize` from src/src/xbpacket.rs lines 82-122: fails on an
empty payload; otherwise emits the 0x7e delimiter, the 16-bit big-endian
length of the inner frame, the inner frame, and the checksum byte, failing if
the inner frame length does not fit `u16`. -/
def serialize (r : XBTXRequest) : Except TXGenError (List Nat) :=
  if r.payload = [] then .error .InvalidLen
  else
    let innerframe := innerBytes r
    if innerframe.length ≤ 0xFFFF then
      .ok (0x7e :: (be16 innerframe.length ++ innerframe ++ [xbchecksum innerframe]))
    else .error .InvalidLen

/-- The byte sequence `serialize` produces in its success branch. -/
def serializeOk (r : XBTXRequest) : List Nat :=
  0x7e :: (be16 (innerBytes r).length ++ innerBytes r ++ [xbchecksum (innerBytes r)])

theorem innerBytes_length (r : XBTXRequest) :
    (innerBytes r).length = 14 + r.payload.length := by
  cases r with
  | mk fid dest radius opts payload =>
    cases dest <;> simp [innerBytes, be64, be16] <;> omega

theorem serialize_eq_ok (r : XBTXRequest) (hp : r.payload ≠ [])
    (hl : (innerBytes r).length ≤ 0xFFFF) :
    serialize r = .ok (serializeOk r) := by
  simp [serialize, hp, hl, serializeOk]

theorem serialize_ok_inv (r : XBTXRequest) (bytes : List Nat)
    (h : serialize r = .ok bytes) :
    r.payload ≠ [] ∧ (innerBytes r).length ≤ 0xFFFF ∧ bytes = serializeOk r := by
  by_cases hp : r.payload = []
  · simp [serialize, hp] at h
  · by_cases hl : (innerBytes r).length ≤ 0xFFFF
    · refine ⟨hp, hl, ?_⟩
      rw [serialize_eq_ok r hp hl] at h
      exact (Except.ok.injEq _ _ ▸ h.symm : _)
    · simp [serialize, hp, hl] at h

/-- C5: every byte sequence emitted by `serialize` ends with the checksum
byte `0xFF - (sum of the inner frame bytes mod 256)`. -/
theorem serialize_checksum (r : XBTXRequest) (bytes : List Nat)
    (h : serialize r = .ok bytes) :
    bytes = 0x7e :: (be16 (innerBytes r).length ++ innerBytes r ++
        [0xFF - (innerBytes r).sum % 256]) ∧
    bytes.getLast? = some (0xFF - (innerBytes r).sum % 256) := by
  obtain ⟨-, -, hb⟩ := serialize_ok_inv r bytes h
  subst hb
  constructor
  · rfl
  · show (126 :: (be16 (innerBytes r).length ++
        (innerBytes r ++ [255 - (innerBytes r).sum % 256]))).getLast? = _
    rw [show (126 :: (be16 (innerBytes r).length ++
          (innerBytes r ++ [255 - (innerBytes r).sum % 256]))) =
        (126 :: (be16 (innerBytes r).length ++ innerBytes r)) ++
          [255 - (innerBytes r).sum % 256] by simp]
    exact List.getLast?_concat _

/-- C5 witness: a concrete transmit request, evaluated. -/
theorem serialize_checksum_witness :
    serialize ⟨1, .U64 2, 3, 4, [5]⟩ = .ok (serializeOk ⟨1, .U64 2, 3, 4, [5]⟩) ∧
    (serializeOk ⟨1, .U64 2, 3, 4, [5]⟩ =
      0x7e :: (be16 (innerBytes ⟨1, .U64 2, 3, 4, [5]⟩).length ++
        innerBytes ⟨1, .U64 2, 3, 4, [5]⟩ ++
        [0xFF - (innerBytes ⟨1, .U64 2, 3, 4, [5]⟩).sum % 256]) ∧
     (serializeOk ⟨1, .U64 2, 3, 4, [5]⟩).getLast? =
      some (0xFF - (innerBytes ⟨1, .U64 2, 3, 4, [5]⟩).sum % 256)) :=
  ⟨rfl, serialize_checksum ⟨1, .U64 2, 3, 4, [5]⟩ _ rfl⟩

/-- C3: the 16-bit big-endian length field written after the 0x7e delimiter
decodes to the inner frame length (frame type byte through end of payload),
which is `14 + |payload|` and never equals the payload length alone.
(The variant serializer in src/src/txpacket.rs that derives the field from
`payload.len()` is dead code: main.rs declares no `mod txpacket`.) -/
theorem serialize_length_field (r : XBTXRequest) (bytes : List Nat)
    (h : serialize r = .ok bytes) :
    256 * bytes.getD 1 0 + bytes.getD 2 0 = (innerBytes r).length ∧
    (innerBytes r).length = 14 + r.payload.length ∧
    (innerBytes r).length ≠ r.payload.length := by
  obtain ⟨-, hl, hb⟩ := serialize_ok_inv r bytes h
  subst hb
  refine ⟨?_, innerBytes_length r, ?_⟩
  · show 256 * ((innerBytes r).length / 256 % 256) + (innerBytes r).length % 256 = _
    have h256 : (innerBytes r).length / 256 % 256 = (innerBytes r).length / 256 :=
      Nat.mod_eq_of_lt (by omega)
    rw [h256]
    omega
  · rw [innerBytes_length r]
    omega

/-- C3 witness: a concrete transmit request, evaluated. -/
theorem serialize_length_field_witness :
    serialize ⟨7, .U16 3, 0, 0, [1, 2]⟩ = .ok (serializeOk ⟨7, .U16 3, 0, 0, [1, 2]⟩) ∧
    (256 * (serializeOk ⟨7, .U16 3, 0, 0, [1, 2]⟩).getD 1 0 +
        (serializeOk ⟨7, .U16 3, 0, 0, [1, 2]⟩).getD 2 0 =
        (innerBytes ⟨7, .U16 3, 0, 0, [1, 2]⟩).length ∧
      (innerBytes ⟨7, .U16 3, 0, 0, [1, 2]⟩).length = 14 + ([1, 2] : List Nat).length ∧
      (innerBytes ⟨7, .U16 3, 0, 0, [1, 2]⟩).length ≠ ([1, 2] : List Nat).length) :=
  ⟨rfl, serialize_length_field ⟨7, .U16 3, 0, 0, [1, 2]⟩ _ rfl⟩

/-
RX side: src/src/xbrx.rs.
-/

/-- `RXPacket` from src/src/xbpacket.rs: a decoded 0x90 receive packet. -/
structure RXPacket where
  sender_addr64 : Nat
  sender_addr16 : Nat
  rx_options : Nat
  payload : List Nat
deriving DecidableEq

/-- The delimiter-hunt loop of `rxxbpacket` (src/src/xbrx.rs lines 33-45):
consume bytes until 0x7e; reaching end-of-stream is an `unwrap` panic,
modelled as `none`. -/
def skipJunk : List Nat → Option (List Nat)
  | [] => none
  | b :: rest => if b = 0x7e then some rest else skipJunk rest

/-- `read_exact` on the stream: exactly `n` bytes, or a panic (`none`). -/
def readExact (n : Nat) (s : List Nat) : Option (List Nat × List Nat) :=
  if n ≤ s.length then some (s.take n, s.drop n) else none

/-- The frame layer of `rxxbpacket` (src/src/xbrx.rs lines 31-74): skip junk to
the delimiter, read the 16-bit big-endian length, that many inner bytes and a
checksum byte; `none` on checksum mismatch (or on end-of-stream panic).
Returns the verified inner frame and the remaining stream. -/
def parseFrame (s : List Nat) : Option (List Nat × List Nat) :=
  match skipJunk s with
  | none => none
  | some s1 =>
    match s1 with
    | a :: b :: s2 =>
      match readExact (a * 256 + b) s2 with
      | none => none
      | some (inner, s3) =>
        match s3 with
        | c :: s4 => if xbchecksum inner = c then some (inner, s4) else none
        | [] => none
    | _ => none

/-- The dispatch of `rxxbpacket` (src/src/xbrx.rs lines 76-112): a 0x8B frame
is logged and dropped, a 0x90 frame is decoded into an `RXPacket`, anything
else is dropped.  A frame too short for its field reads would panic in the
source (`Bytes::get_u8` and friends); that is modelled as `none` as well. -/
def rxxbpacket (s : List Nat) : Option RXPacket :=
  match parseFrame s with
  | none => none
  | some (inner, _) =>
    match inner with
    | 0x8B :: _ => none
    | 0x90 :: a :: b :: c :: d :: e :: f :: g :: h :: i :: j :: k :: payload =>
      some { sender_addr64 := ((((((a * 256 + b) * 256 + c) * 256 + d) * 256 + e) * 256
                + f) * 256 + g) * 256 + h,
             sender_addr16 := i * 256 + j,
             rx_options := k,
             payload := payload }
    | _ => none

theorem parseFrame_serializeOk (r : XBTXRequest)
    (hl : (innerBytes r).length ≤ 0xFFFF) :
    parseFrame (serializeOk r) = some (innerBytes r, []) := by
  have hdec : (innerBytes r).length / 256 % 256 * 256 + (innerBytes r).length % 256
      = (innerBytes r).length := by
    have h256 : (innerBytes r).length / 256 % 256 = (innerBytes r).length / 256 :=
      Nat.mod_eq_of_lt (by omega)
    rw [h256]
    omega
  simp [serializeOk, parseFrame, skipJunk, be16, readExact, hdec,
    List.take_left, List.drop_left]

/-- C1 (amended): for a payload of length 1..65521, serialization succeeds,
the frame layer of the parser accepts the produced bytes and recovers the
inner frame exactly (frame type 0x10, destination bytes, payload at offset
14), but `rxxbpacket` itself returns `none`, because only frame type 0x90
decodes to a packet. -/
theorem serialize_frame_roundtrip (fid radius opts D : Nat) (P : List Nat)
    (h1 : P ≠ []) (h2 : P.length ≤ 65521) :
    serialize ⟨fid, .U64 D, radius, opts, P⟩ =
      .ok (serializeOk ⟨fid, .U64 D, radius, opts, P⟩) ∧
    parseFrame (serializeOk ⟨fid, .U64 D, radius, opts, P⟩) =
      some (innerBytes ⟨fid, .U64 D, radius, opts, P⟩, []) ∧
    (innerBytes ⟨fid, .U64 D, radius, opts, P⟩).headI = 0x10 ∧
    ((innerBytes ⟨fid, .U64 D, radius, opts, P⟩).drop 2).take 8 = be64 D ∧
    (innerBytes ⟨fid, .U64 D, radius, opts, P⟩).drop 14 = P ∧
    rxxbpacket (serializeOk ⟨fid, .U64 D, radius, opts, P⟩) = none := by
  have hl : (innerBytes ⟨fid, .U64 D, radius, opts, P⟩).length ≤ 0xFFFF := by
    rw [innerBytes_length]
    simp only
    omega
  have hparse := parseFrame_serializeOk ⟨fid, .U64 D, radius, opts, P⟩ hl
  refine ⟨serialize_eq_ok _ h1 hl, hparse, rfl, rfl, rfl, ?_⟩
  unfold rxxbpacket
  rw [hparse]
  rfl

/-- C1 witness: a concrete payload and destination. -/
theorem serialize_frame_roundtrip_witness :
    (([9] : List Nat) ≠ [] ∧ ([9] : List Nat).length ≤ 65521) ∧
    (serialize ⟨0, .U64 5, 0, 0, [9]⟩ =
        .ok (serializeOk ⟨0, .U64 5, 0, 0, [9]⟩) ∧
      parseFrame (serializeOk ⟨0, .U64 5, 0, 0, [9]⟩) =
        some (innerBytes ⟨0, .U64 5, 0, 0, [9]⟩, []) ∧
      (innerBytes ⟨0, .U64 5, 0, 0, [9]⟩).headI = 0x10 ∧
      ((innerBytes ⟨0, .U64 5, 0, 0, [9]⟩).drop 2).take 8 = be64 5 ∧
      (innerBytes ⟨0, .U64 5, 0, 0, [9]⟩).drop 14 = [9] ∧
      rxxbpacket (serializeOk ⟨0, .U64 5, 0, 0, [9]⟩) = none) :=
  ⟨⟨by decide, by decide⟩,
   serialize_frame_roundtrip 0 0 0 5 [9] (by decide) (by decide)⟩

theorem serialize_long_err (P : List Nat) (hp : P ≠ [])
    (hl : 65535 < 14 + P.length) :
    serialize ⟨0, .U64 0, 0, 0, P⟩ = .error .InvalidLen := by
  have hcond : ¬((innerBytes ⟨0, .U64 0, 0, 0, P⟩).length ≤ 0xFFFF) := by
    rw [innerBytes_length]
    simp only
    omega
  simp [serialize, hp, hcond]

/-- C1 counterexample: the claim as stated fails.  At payload `[0]`, dest 0,
serialization succeeds but `rxxbpacket` yields no packet at all (the frame
type is 0x10, not 0x90); and at the claim's upper bound, a payload of 65530
bytes does not serialize (inner frame length 65544 exceeds the u16 field). -/
theorem serialize_parse_claim_fails :
    serialize ⟨0, .U64 0, 0, 0, [0]⟩ =
      .ok [126, 0, 15, 16, 0, 0, 0, 0, 0, 0, 0, 0, 0, 255, 254, 0, 0, 0, 242] ∧
    rxxbpacket [126, 0, 15, 16, 0, 0, 0, 0, 0, 0, 0, 0, 0, 255, 254, 0, 0, 0, 242]
      = none ∧
    serialize ⟨0, .U64 0, 0, 0, List.replicate 65530 0⟩ = .error .InvalidLen := by
  refine ⟨rfl, rfl, serialize_long_err _ ?_ ?_⟩
  · intro h
    have hlen := congrArg List.length h
    rw [List.length_replicate, List.length_nil] at hlen
    exact absurd hlen (by omega)
  · rw [List.length_replicate]
    omega

/-
Packetizer: src/src/xbpacket.rs `PacketStream`.
-/

/-- Rust `slice::chunks(k)`: consecutive chunks of `k` elements, the last chunk
possibly shorter.  (`chunks(0)` panics in Rust; the `k = 0` case below is
never reached from `packetize_data` under the spec's `M ≥ 2`.) -/
def listChunks {α : Type} : Nat → List α → List (List α)
  | _, [] => []
  | 0, _ :: _ => []
  | k + 1, x :: xs =>
      (x :: xs).take (k + 1) :: listChunks (k + 1) ((x :: xs).drop (k + 1))
termination_by _ l => l.length
decreasing_by
  simp only [List.length_drop, List.length_cons]
  omega

theorem listChunks_nil {α : Type} (k : Nat) : listChunks k ([] : List α) = [] := by
  rw [listChunks.eq_def]
  cases k <;> rfl

theorem listChunks_cons {α : Type} (k : Nat) (l : List α) (hk : k ≠ 0)
    (hl : l ≠ []) : listChunks k l = l.take k :: listChunks k (l.drop k) := by
  obtain ⟨x, xs, rfl⟩ := List.exists_cons_of_ne_nil hl
  obtain ⟨k', rfl⟩ := Nat.exists_eq_succ_of_ne_zero hk
  rw [listChunks.eq_def]

theorem listChunks_flatten_aux {α : Type} (k : Nat) (hk : k ≠ 0) :
    ∀ (n : Nat) (l : List α), l.length ≤ n → (listChunks k l).flatten = l := by
  intro n
  induction n with
  | zero =>
    intro l h
    have hl : l = [] := List.eq_nil_of_length_eq_zero (Nat.le_zero.mp h)
    subst hl
    simp [listChunks_nil]
  | succ n ih =>
    intro l h
    by_cases hl : l = []
    · subst hl
      simp [listChunks_nil]
    · rw [listChunks_cons k l hk hl]
      simp only [List.flatten_cons]
      rw [ih (l.drop k) (by simp only [List.length_drop]; omega)]
      exact List.take_append_drop k l

theorem listChunks_flatten {α : Type} (k : Nat) (hk : k ≠ 0) (l : List α) :
    (listChunks k l).flatten = l :=
  listChunks_flatten_aux k hk l.length l le_rfl

theorem listChunks_length_aux {α : Type} (k : Nat) (hk : k ≠ 0) :
    ∀ (n : Nat) (l : List α), l.length ≤ n →
      (listChunks k l).length = (l.length + k - 1) / k := by
  intro n
  induction n with
  | zero =>
    intro l h
    have hl : l = [] := List.eq_nil_of_length_eq_zero (Nat.le_zero.mp h)
    subst hl
    rw [listChunks_nil]
    simp only [List.length_nil]
    rw [Nat.div_eq_of_lt (show 0 + k - 1 < k by omega)]
  | succ n ih =>
    intro l h
    by_cases hl : l = []
    · subst hl
      rw [listChunks_nil]
      simp only [List.length_nil]
      rw [Nat.div_eq_of_lt (show 0 + k - 1 < k by omega)]
    · rw [listChunks_cons k l hk hl]
      simp only [List.length_cons]
      rw [ih (l.drop k) (by simp only [List.length_drop]; omega)]
      simp only [List.length_drop]
      have hpos : 0 < l.length := List.length_pos.mpr hl
      by_cases hcase : k < l.length
      · have harith : l.length + k - 1 = (l.length - k + k - 1) + k := by omega
        rw [harith, Nat.add_div_right _ (Nat.pos_of_ne_zero hk)]
      · have h1 : l.length - k = 0 := by omega
        rw [h1]
        rw [Nat.div_eq_of_lt (show 0 + k - 1 < k by omega)]
        rw [Nat.div_eq_sub_div (Nat.pos_of_ne_zero hk)
          (show k ≤ l.length + k - 1 by omega)]
        rw [Nat.div_eq_of_lt (show l.length + k - 1 - k < k by omega)]

theorem listChunks_length {α : Type} (k : Nat) (hk : k ≠ 0) (l : List α) :
    (listChunks k l).length = (l.length + k - 1) / k :=
  listChunks_length_aux k hk l.length l le_rfl

/-- `PacketStream` from src/src/xbpacket.rs: carries the frame counter. -/
structure PacketStream where
  framecounter : Nat
deriving DecidableEq

/-- `PacketStream::get_and_incr_framecounter`: returns the counter, then wraps
from 255 back to 1 (0 is skipped; it disables tx reports). -/
def get_and_incr_framecounter (ps : PacketStream) : Nat × PacketStream :=
  (ps.framecounter, ⟨if ps.framecounter = 255 then 1 else ps.framecounter + 1⟩)

/-- The `for chunk in chunks` loop of `packetize_data` (src/src/xbpacket.rs
lines 202-222), with `chunks_remaining` threaded explicitly: each chunk gets
the leading byte `chunks_remaining - 1` and becomes a TX request with
broadcast radius 0. -/
def packetizeLoop (dest : XBDestAddr) (disable_xbee_acks request_xbee_tx_reports : Bool) :
    Nat → PacketStream → List (List Nat) → List XBTXRequest × PacketStream
  | _, ps, [] => ([], ps)
  | chunks_remaining, ps, chunk :: rest =>
    let fidps := if request_xbee_tx_reports then get_and_incr_framecounter ps else (0, ps)
    let next := packetizeLoop dest disable_xbee_acks request_xbee_tx_reports
      (chunks_remaining - 1) fidps.2 rest
    ({ frame_id := fidps.1,
       dest_addr := dest,
       broadcast_radius := 0,
       transmit_options := if disable_xbee_acks then 1 else 0,
       payload := (chunks_remaining - 1) :: chunk } :: next.1, next.2)

/-- `PacketStream::packetize_data` from src/src/xbpacket.rs lines 184-225:
empty data yields zero packets; the data is split into chunks of
`maxpacketsize - 1` bytes; more than 255 chunks is an error (the `u8`
conversion of the chunk count fails); each chunk is prefixed with the
remaining-chunks byte. -/
def packetize_data (ps : PacketStream) (maxpacketsize : Nat) (dest : XBDestAddr)
    (data : List Nat) (disable_xbee_acks request_xbee_tx_reports : Bool) :
    Except String (List XBTXRequest) × PacketStream :=
  if data = [] then (.ok [], ps)
  else
    let chunks := listChunks (maxpacketsize - 1) data
    if chunks.length ≤ 255 then
      let res := packetizeLoop dest disable_xbee_acks request_xbee_tx_reports
        chunks.length ps chunks
      (.ok res.1, res.2)
    else (.error ("More than 255 chunks to transmit"), ps)

/-- The payload list the packetizer loop produces: each chunk prefixed with a
descending remaining-chunks byte. -/
def headered : Nat → List (List Nat) → List (List Nat)
  | _, [] => []
  | n, c :: cs => ((n - 1) :: c) :: headered (n - 1) cs

theorem packetizeLoop_payloads (dest : XBDestAddr) (da rep : Bool) :
    ∀ (cs : List (List Nat)) (n : Nat) (ps : PacketStream),
      (packetizeLoop dest da rep n ps cs).1.map XBTXRequest.payload = headered n cs := by
  intro cs
  induction cs with
  | nil => intro n ps; simp [packetizeLoop, headered]
  | cons c cs ih =>
    intro n ps
    simp [packetizeLoop, headered, ih]

theorem headered_map_tail (n : Nat) (cs : List (List Nat)) :
    (headered n cs).map List.tail = cs := by
  induction cs generalizing n with
  | nil => simp [headered]
  | cons c cs ih => simp [headered, ih]

theorem headered_length (n : Nat) (cs : List (List Nat)) :
    (headered n cs).length = cs.length := by
  induction cs generalizing n with
  | nil => simp [headered]
  | cons c cs ih => simp [headered, ih]

theorem headered_ne_nil (n : Nat) (cs : List (List Nat)) (h : cs ≠ []) :
    headered n cs ≠ [] := by
  cases cs with
  | nil => exact absurd rfl h
  | cons c cs => simp [headered]

theorem headered_getLast_headI (cs : List (List Nat)) :
    ∀ n, cs ≠ [] →
      ((headered n cs).map List.headI).getLast? = some (n - cs.length) := by
  induction cs with
  | nil => intro n h; exact absurd rfl h
  | cons c cs ih =>
    intro n _
    by_cases hcs : cs = []
    · subst hcs
      simp [headered]
    · have hne : (headered (n - 1) cs).map List.headI ≠ [] := by
        simp only [ne_eq, List.map_eq_nil_iff]
        exact headered_ne_nil _ _ hcs
      simp only [headered, List.map_cons, List.headI]
      obtain ⟨y, ys, hys⟩ := List.exists_cons_of_ne_nil hne
      rw [hys, List.getLast?_cons_cons, ← hys, ih (n - 1) hcs]
      simp only [List.length_cons]
      congr 1
      omega

theorem headered_dropLast_headI (cs : List (List Nat)) :
    ∀ n, cs.length ≤ n →
      ∀ pl ∈ (headered n cs).dropLast, 0 < pl.headI := by
  induction cs with
  | nil => intro n _ pl hpl; simp [headered] at hpl
  | cons c cs ih =>
    intro n hn pl hpl
    by_cases hcs : cs = []
    · subst hcs
      simp [headered] at hpl
    · rw [show headered n (c :: cs) = ((n - 1) :: c) :: headered (n - 1) cs from rfl,
        List.dropLast_cons_of_ne_nil (headered_ne_nil _ _ hcs)] at hpl
      rcases List.mem_cons.mp hpl with hpl | hpl
      · subst hpl
        have : 2 ≤ n := by
          have : 1 ≤ cs.length := by
            cases cs with
            | nil => exact absurd rfl hcs
            | cons _ _ => simp
          simp only [List.length_cons] at hn
          omega
        simp only [List.headI]
        omega
      · exact ih (n - 1) (by simp only [List.length_cons] at hn; omega) pl hpl

/-- C2: with `M ≥ 2`, a non-empty payload, and at most 255 chunks needed,
`packetize_data` returns exactly `⌈|P| / (M-1)⌉` transmit requests (at most
255); stripping the first payload byte of each chunk and concatenating yields
`P`; the last chunk's first payload byte is 0 and every other chunk's is
positive. -/
theorem packetize_data_spec (M : Nat) (dest : XBDestAddr) (P : List Nat)
    (da rep : Bool) (ps : PacketStream)
    (hM : 2 ≤ M) (hP : P ≠ [])
    (hc : (P.length + (M - 1) - 1) / (M - 1) ≤ 255) :
    ∃ pkts psf,
      packetize_data ps M dest P da rep = (.ok pkts, psf) ∧
      pkts.length = (P.length + (M - 1) - 1) / (M - 1) ∧
      pkts.length ≤ 255 ∧
      ((pkts.map XBTXRequest.payload).map List.tail).flatten = P ∧
      ((pkts.map XBTXRequest.payload).map List.headI).getLast? = some 0 ∧
      ∀ pl ∈ (pkts.map XBTXRequest.payload).dropLast, 0 < pl.headI := by
  have hk : M - 1 ≠ 0 := by omega
  have hclen : (listChunks (M - 1) P).length = (P.length + (M - 1) - 1) / (M - 1) :=
    listChunks_length (M - 1) hk P
  have hle : (listChunks (M - 1) P).length ≤ 255 := by rw [hclen]; exact hc
  have hcne : listChunks (M - 1) P ≠ [] := by
    rw [listChunks_cons (M - 1) P hk hP]
    simp
  have hmap := packetizeLoop_payloads dest da rep (listChunks (M - 1) P)
    (listChunks (M - 1) P).length ps
  refine ⟨(packetizeLoop dest da rep (listChunks (M - 1) P).length ps
      (listChunks (M - 1) P)).1,
    (packetizeLoop dest da rep (listChunks (M - 1) P).length ps
      (listChunks (M - 1) P)).2, ?_, ?_, ?_, ?_, ?_, ?_⟩
  · simp [packetize_data, hP, hle]
  · have := congrArg List.length hmap
    rw [List.length_map, headered_length] at this
    rw [this, hclen]
  · have := congrArg List.length hmap
    rw [List.length_map, headered_length] at this
    rw [this]
    exact hle
  · rw [hmap, headered_map_tail]
    exact listChunks_flatten (M - 1) hk P
  · rw [hmap, headered_getLast_headI (listChunks (M - 1) P) _ hcne]
    simp
  · rw [hmap]
    exact headered_dropLast_headI (listChunks (M - 1) P) _ le_rfl

/-- C2 witness: `M = 3`, payload `[5, 6, 7]` splits into two chunks. -/
theorem packetize_data_spec_witness :
    (2 ≤ 3 ∧ ([5, 6, 7] : List Nat) ≠ [] ∧
      (([5, 6, 7] : List Nat).length + (3 - 1) - 1) / (3 - 1) ≤ 255) ∧
    (∃ pkts psf,
      packetize_data ⟨1⟩ 3 (.U64 2) [5, 6, 7] false false = (.ok pkts, psf) ∧
      pkts.length = (([5, 6, 7] : List Nat).length + (3 - 1) - 1) / (3 - 1) ∧
      pkts.length ≤ 255 ∧
      ((pkts.map XBTXRequest.payload).map List.tail).flatten = [5, 6, 7] ∧
      ((pkts.map XBTXRequest.payload).map List.headI).getLast? = some 0 ∧
      ∀ pl ∈ (pkts.map XBTXRequest.payload).dropLast, 0 < pl.headI) :=
  ⟨⟨by decide, by decide, by decide⟩,
   packetize_data_spec 3 (.U64 2) [5, 6, 7] false false ⟨1⟩
     (by decide) (by decide) (by decide)⟩

/-
Reframer: src/src/xbrx.rs `XBReframer`.
-/

/-- State of `XBReframer`: the per-sender reassembly buffers
(`HashMap<u64, BytesMut>`), as a function from the 64-bit sender address. -/
abbrev SenderMap := Nat → Option (List Nat)

/-- One iteration of the loop in `XBReframer::rxframe` (src/src/xbrx.rs lines
140-154), applied to an already-received packet: append `payload[1..]` to the
sender's buffer; if `payload[0] == 0`, remove the buffer and emit the frame,
else store the extended buffer.  Both indexings panic on an empty payload,
modelled as `none`. -/
def rxframe_step (buf : SenderMap) (p : RXPacket) :
    Option (SenderMap × Option (Nat × Nat × List Nat)) :=
  match p.payload with
  | [] => none
  | h :: t =>
    let frame := (buf p.sender_addr64).getD [] ++ t
    if h = 0 then
      some (fun k => if k = p.sender_addr64 then none else buf k,
        some (p.sender_addr64, p.sender_addr16, frame))
    else
      some (fun k => if k = p.sender_addr64 then some frame else buf k, none)

/-- `rxframe` iterated over a list of received packets, collecting every
emitted `(sender64, sender16, datagram)` triple in order. -/
def runReframer (buf : SenderMap) :
    List RXPacket → Option (SenderMap × List (Nat × Nat × List Nat))
  | [] => some (buf, [])
  | p :: ps =>
    match rxframe_step buf p with
    | none => none
    | some (buf2, out) =>
      match runReframer buf2 ps with
      | none => none
      | some (buff, outs) => some (buff, out.toList ++ outs)

/-- Single-sender reference behaviour: fold one sender's chunk payloads,
emitting the accumulated datagram at each zero header byte. -/
def singleRun (buf : Option (List Nat)) :
    List (List Nat) → Option (List Nat) × List (List Nat)
  | [] => (buf, [])
  | pl :: rest =>
    let frame := buf.getD [] ++ pl.tail
    if pl.headI = 0 then
      ((singleRun none rest).1, frame :: (singleRun none rest).2)
    else singleRun (some frame) rest

/-- The payloads sent by sender `s`, in arrival order. -/
def payloadsOf (s : Nat) (ps : List RXPacket) : List (List Nat) :=
  (ps.filter (fun p => p.sender_addr64 == s)).map RXPacket.payload

/-- The datagrams the reframer emitted for sender `s`, in order. -/
def outsFor (s : Nat) (outs : List (Nat × Nat × List Nat)) : List (List Nat) :=
  outs.filterMap (fun o => if o.1 = s then some o.2.2 else none)

theorem payloadsOf_cons (s : Nat) (p : RXPacket) (ps : List RXPacket) :
    payloadsOf s (p :: ps) =
      if p.sender_addr64 = s then p.payload :: payloadsOf s ps
      else payloadsOf s ps := by
  by_cases h : p.sender_addr64 = s
  · simp [payloadsOf, List.filter_cons, h]
  · simp [payloadsOf, List.filter_cons, h]

theorem outsFor_cons (s a b : Nat) (d : List Nat) (outs : List (Nat × Nat × List Nat)) :
    outsFor s ((a, b, d) :: outs) =
      if a = s then d :: outsFor s outs else outsFor s outs := by
  by_cases h : a = s
  · simp [outsFor, List.filterMap_cons, h]
  · simp [outsFor, List.filterMap_cons, h]

theorem runReframer_proj (ps : List RXPacket) :
    ∀ buf : SenderMap, (∀ p ∈ ps, p.payload ≠ []) →
      ∃ buff outs, runReframer buf ps = some (buff, outs) ∧
        ∀ s, buff s = (singleRun (buf s) (payloadsOf s ps)).1 ∧
             outsFor s outs = (singleRun (buf s) (payloadsOf s ps)).2 := by
  induction ps with
  | nil =>
    intro buf _
    refine ⟨buf, [], rfl, ?_⟩
    intro s
    simp [payloadsOf, outsFor, singleRun]
  | cons p ps ih =>
    intro buf hne
    obtain ⟨h, t, hpl⟩ := List.exists_cons_of_ne_nil (hne p (List.mem_cons_self p ps))
    have hne2 : ∀ q ∈ ps, q.payload ≠ [] := fun q hq => hne q (List.mem_cons_of_mem p hq)
    by_cases h0 : h = 0
    · subst h0
      have hstep : rxframe_step buf p =
          some (fun k => if k = p.sender_addr64 then none else buf k,
            some (p.sender_addr64, p.sender_addr16, (buf p.sender_addr64).getD [] ++ t)) := by
        simp [rxframe_step, hpl]
      obtain ⟨buff, outs2, hrun, hproj⟩ :=
        ih (fun k => if k = p.sender_addr64 then none else buf k) hne2
      refine ⟨buff,
        (p.sender_addr64, p.sender_addr16, (buf p.sender_addr64).getD [] ++ t) :: outs2,
        ?_, ?_⟩
      · simp only [runReframer, hstep, hrun, Option.toList_some]
        rfl
      · intro s
        obtain ⟨hb, ho⟩ := hproj s
        by_cases hs : p.sender_addr64 = s
        · subst hs
          simp at hb ho
          rw [payloadsOf_cons, if_pos rfl, outsFor_cons, if_pos rfl, hpl]
          constructor
          · rw [hb]
            simp [singleRun]
          · rw [ho]
            simp [singleRun]
        · have hs2 : s ≠ p.sender_addr64 := fun hss => hs hss.symm
          simp [hs2] at hb ho
          rw [payloadsOf_cons, if_neg hs, outsFor_cons, if_neg hs]
          exact ⟨hb, ho⟩
    · have hstep : rxframe_step buf p =
          some (fun k => if k = p.sender_addr64
              then some ((buf p.sender_addr64).getD [] ++ t) else buf k, none) := by
        simp [rxframe_step, hpl, h0]
      obtain ⟨buff, outs2, hrun, hproj⟩ :=
        ih (fun k => if k = p.sender_addr64
          then some ((buf p.sender_addr64).getD [] ++ t) else buf k) hne2
      refine ⟨buff, outs2, ?_, ?_⟩
      · simp only [runReframer, hstep, hrun, Option.toList_none]
        rfl
      · intro s
        obtain ⟨hb, ho⟩ := hproj s
        by_cases hs : p.sender_addr64 = s
        · subst hs
          simp at hb ho
          rw [payloadsOf_cons, if_pos rfl, hpl]
          constructor
          · rw [hb]
            simp [singleRun, h0]
          · rw [ho]
            simp [singleRun, h0]
        · have hs2 : s ≠ p.sender_addr64 := fun hss => hs hss.symm
          simp [hs2] at hb ho
          rw [payloadsOf_cons, if_neg hs]
          exact ⟨hb, ho⟩

theorem getLast?_cons_ne {α : Type} (a : α) (l : List α) (h : l ≠ []) :
    (a :: l).getLast? = l.getLast? := by
  obtain ⟨y, ys, rfl⟩ := List.exists_cons_of_ne_nil h
  exact List.getLast?_cons_cons

/-- A chunk-payload sequence forming exactly one datagram: non-empty, every
payload before the last has a non-zero header byte, the last has header 0. -/
def oneDatagram (pls : List (List Nat)) : Prop :=
  pls ≠ [] ∧ (∀ pl ∈ pls.dropLast, pl.headI ≠ 0) ∧
    pls.getLast?.map List.headI = some 0

instance (pls : List (List Nat)) : Decidable (oneDatagram pls) := by
  unfold oneDatagram
  infer_instance

theorem singleRun_oneDatagram (pls : List (List Nat)) :
    ∀ b, oneDatagram pls →
      singleRun b pls = (none, [b.getD [] ++ (pls.map List.tail).flatten]) := by
  induction pls with
  | nil => intro b hod; exact absurd rfl hod.1
  | cons pl rest ih =>
    intro b hod
    by_cases hrest : rest = []
    · subst hrest
      have h0 : pl.headI = 0 := by
        have hlast := hod.2.2
        simp only [List.getLast?_singleton, Option.map_some] at hlast
        exact Option.some.injEq _ _ ▸ hlast
      simp [singleRun, h0]
    · have hne0 : pl.headI ≠ 0 := by
        apply hod.2.1
        rw [List.dropLast_cons_of_ne_nil hrest]
        exact List.mem_cons_self _ _
      have hod2 : oneDatagram rest := by
        refine ⟨hrest, ?_, ?_⟩
        · intro q hq
          apply hod.2.1
          rw [List.dropLast_cons_of_ne_nil hrest]
          exact List.mem_cons_of_mem _ hq
        · rw [← hod.2.2, getLast?_cons_ne _ _ hrest]
      rw [show singleRun b (pl :: rest) =
          singleRun (some (b.getD [] ++ pl.tail)) rest by simp [singleRun, hne0]]
      rw [ih _ hod2]
      simp

theorem payloadsOf_ne_nil_mem (s : Nat) (ps : List RXPacket)
    (h : payloadsOf s ps ≠ []) : s ∈ ps.map RXPacket.sender_addr64 := by
  induction ps with
  | nil => simp [payloadsOf] at h
  | cons p ps ih =>
    rw [payloadsOf_cons] at h
    by_cases hs : p.sender_addr64 = s
    · simp [hs]
    · rw [if_neg hs] at h
      simp [ih h]

/-- C4: for any interleaved packet sequence with non-empty payloads where each
appearing sender's chunk subsequence forms exactly one datagram (non-zero
headers then a zero header), the reframer (run from an empty buffer map)
emits, for each sender, exactly the concatenation of that sender's chunk
payloads from byte 1 onward, in arrival order; senders never mix, and every
buffer is empty afterwards. -/
theorem rxframe_interleaved (ps : List RXPacket)
    (hne : ∀ p ∈ ps, p.payload ≠ [])
    (hdg : ∀ s ∈ ps.map RXPacket.sender_addr64, oneDatagram (payloadsOf s ps)) :
    ∃ buff outs, runReframer (fun _ => none) ps = some (buff, outs) ∧
      ∀ s, buff s = none ∧
        outsFor s outs =
          if payloadsOf s ps = [] then []
          else [((payloadsOf s ps).map List.tail).flatten] := by
  obtain ⟨buff, outs, hrun, hproj⟩ := runReframer_proj ps (fun _ => none) hne
  refine ⟨buff, outs, hrun, ?_⟩
  intro s
  obtain ⟨hb, ho⟩ := hproj s
  by_cases hp : payloadsOf s ps = []
  · rw [hp] at hb ho
    simp only [singleRun] at hb ho
    exact ⟨hb, by rw [ho, if_pos hp]⟩
  · have hod := hdg s (payloadsOf_ne_nil_mem s ps hp)
    have hsr := singleRun_oneDatagram (payloadsOf s ps) none hod
    rw [hsr] at hb ho
    refine ⟨hb, ?_⟩
    rw [ho, if_neg hp]
    simp

/-- Two interleaved senders, two chunks each, for the C4 witness. -/
def c4ps : List RXPacket :=
  [⟨1, 0, 0, [1, 10]⟩, ⟨2, 0, 0, [1, 20]⟩, ⟨1, 0, 0, [0, 11]⟩, ⟨2, 0, 0, [0, 21]⟩]

/-- C4 witness: two senders interleaved; each gets its own datagram. -/
theorem rxframe_interleaved_witness :
    ((∀ p ∈ c4ps, p.payload ≠ []) ∧
      (∀ s ∈ c4ps.map RXPacket.sender_addr64, oneDatagram (payloadsOf s c4ps))) ∧
    (∃ buff outs, runReframer (fun _ => none) c4ps = some (buff, outs) ∧
      ∀ s, buff s = none ∧
        outsFor s outs =
          if payloadsOf s c4ps = [] then []
          else [((payloadsOf s c4ps).map List.tail).flatten]) :=
  ⟨⟨by decide, by decide⟩, rxframe_interleaved c4ps (by decide) (by decide)⟩

/-- C9: the reframer's packet-processing step is partial in the payload: it
has no defined result (the source indexings `payload[0]` / `payload[1..]`
panic) exactly when the received 0x90 payload is empty; every packet it
actually consumes has a non-empty payload. -/
theorem rxframe_step_none_iff (buf : SenderMap) (p : RXPacket) :
    rxframe_step buf p = none ↔ p.payload = [] := by
  cases hp : p.payload with
  | nil => simp [rxframe_step, hp]
  | cons h t =>
    simp only [rxframe_step, hp]
    by_cases h0 : h = 0 <;> simp [h0]

/-
TUN bridge: src/src/tun.rs.
-/

/-- `std::net::IpAddr`: a v4 or v6 address (the numeric value is opaque here;
only equality of addresses matters to the cache). -/
inductive IpAddr where
  | V4 (a : Nat)
  | V6 (a : Nat)
deriving DecidableEq

/-- `XB_BROADCAST` from src/src/tun.rs. -/
def XB_BROADCAST : Nat := 0xffff

/-- `XBTun` from src/src/tun.rs, without the OS handles (tun device, name):
the configuration and the IP-to-radio-MAC cache with expiry instants.
Instants are modelled as `Nat`. -/
structure XBTun where
  myxbmac : Nat
  broadcast_everything : Bool
  max_ip_cache : Nat
  disable_ipv4 : Bool
  disable_ipv6 : Bool
  dests : IpAddr → Option (Nat × Nat)

/-- `XBTun::get_xb_dest_mac` (src/src/tun.rs lines 82-101): broadcast when
`broadcast_everything`; otherwise look the IP up, broadcasting on a miss or on
an expired entry (`Instant::now() >= expiration`). -/
def get_xb_dest_mac (m : XBTun) (now : Nat) (ipaddr : IpAddr) : Nat :=
  if m.broadcast_everything then XB_BROADCAST
  else
    match m.dests ipaddr with
    | none => XB_BROADCAST
    | some (dest, expiration) => if expiration ≤ now then XB_BROADCAST else dest

/-- One datagram delivered by the reframer to `frames_from_xb_processor`,
with the result of the external `etherparse` IP-header parse attached as an
oracle: `none` when no IP header could be extracted. -/
structure XBFrame where
  fromu64 : Nat
  parsed : Option (IpAddr × IpAddr)
  payload : List Nat

/-- The per-family disable check of src/src/tun.rs (`--disable-ipv4` /
`--disable-ipv6`). -/
def familyDisabled (m : XBTun) : IpAddr → Bool
  | .V4 _ => m.disable_ipv4
  | .V6 _ => m.disable_ipv6

/-- One iteration of `XBTun::frames_from_xb_processor` (src/src/tun.rs lines
163-209): an unparsable payload is still written to the TUN device; a frame
whose source family is disabled is skipped entirely (`continue`); otherwise
the source IP is recorded (with expiry `now + max_ip_cache`) unless
`broadcast_everything`, and the payload is written.  Returns the new cache and
the payload written to the TUN device, if any. -/
def frames_from_xb_step (m : XBTun) (now : Nat) (f : XBFrame) :
    (IpAddr → Option (Nat × Nat)) × Option (List Nat) :=
  match f.parsed with
  | none => (m.dests, some f.payload)
  | some (source, _destination) =>
    if familyDisabled m source then (m.dests, none)
    else if m.broadcast_everything then (m.dests, some f.payload)
    else
      (fun ip => if ip = source then some (f.fromu64, now + m.max_ip_cache)
        else m.dests ip,
       some f.payload)

/-- `frames_from_xb_processor` iterated over a list of received datagrams,
collecting everything written to the TUN device. -/
def frames_from_xb_run (m : XBTun) (now : Nat) :
    List XBFrame → (IpAddr → Option (Nat × Nat)) × List (List Nat)
  | [] => (m.dests, [])
  | f :: fs =>
    let step := frames_from_xb_step m now f
    let rest := frames_from_xb_run { m with dests := step.1 } now fs
    (rest.1, step.2.toList ++ rest.2)

/-- C10: with `broadcast_everything` set (and neither IP family disabled),
receiving any sequence of frames leaves the IP cache exactly as it was — an
initially empty cache stays empty forever — while every received datagram is
still written to the TUN device. -/
theorem tun_broadcast_no_learning (m : XBTun) (now : Nat) (fs : List XBFrame)
    (hb : m.broadcast_everything = true)
    (h4 : m.disable_ipv4 = false) (h6 : m.disable_ipv6 = false) :
    (frames_from_xb_run m now fs).1 = m.dests ∧
    (frames_from_xb_run m now fs).2 = fs.map XBFrame.payload := by
  induction fs with
  | nil => exact ⟨rfl, rfl⟩
  | cons f fs ih =>
    have hstep : frames_from_xb_step m now f = (m.dests, some f.payload) := by
      cases hp : f.parsed with
      | none => simp [frames_from_xb_step, hp]
      | some sd =>
        obtain ⟨src, dst⟩ := sd
        have hfam : familyDisabled m src = false := by
          cases src <;> simp [familyDisabled, h4, h6]
        simp [frames_from_xb_step, hp, hfam, hb]
    simp only [frames_from_xb_run, hstep]
    exact ⟨ih.1, by simp [ih.2]⟩

/-- Concrete TUN state for the C10 witness. -/
def c10m : XBTun := ⟨0xAA, true, 300, false, false, fun _ => none⟩

/-- Concrete received frames for the C10 witness. -/
def c10fs : List XBFrame :=
  [⟨5, some (.V4 1, .V4 2), [9, 9]⟩, ⟨6, none, [7]⟩]

/-- C10 witness: two frames received under `broadcast_everything`. -/
theorem tun_broadcast_no_learning_witness :
    (c10m.broadcast_everything = true ∧ c10m.disable_ipv4 = false ∧
      c10m.disable_ipv6 = false) ∧
    ((frames_from_xb_run c10m 0 c10fs).1 = c10m.dests ∧
      (frames_from_xb_run c10m 0 c10fs).2 = c10fs.map XBFrame.payload) :=
  ⟨⟨rfl, rfl, rfl⟩, tun_broadcast_no_learning c10m 0 c10fs rfl rfl rfl⟩

/-- C6: without `broadcast_everything`, after a receive from radio MAC `R`
with source IP `I` at time `t0` (family enabled), a transmit to `I` before
`t0 + max_ip_cache` routes to `R`, and at or after that instant routes to the
broadcast address 0xFFFF; an IP with no cache entry also routes to 0xFFFF. -/
theorem tun_cache_learning (m : XBTun) (R t0 : Nat) (I dst : IpAddr) (pl : List Nat)
    (hb : m.broadcast_everything = false)
    (hfam : familyDisabled m I = false) :
    (∀ t, t < t0 + m.max_ip_cache →
      get_xb_dest_mac
        { m with dests := (frames_from_xb_step m t0 ⟨R, some (I, dst), pl⟩).1 } t I = R) ∧
    (∀ t, t0 + m.max_ip_cache ≤ t →
      get_xb_dest_mac
        { m with dests := (frames_from_xb_step m t0 ⟨R, some (I, dst), pl⟩).1 } t I
        = XB_BROADCAST) ∧
    (∀ t J, m.dests J = none → get_xb_dest_mac m t J = XB_BROADCAST) := by
  have hstep : (frames_from_xb_step m t0 ⟨R, some (I, dst), pl⟩).1 =
      fun ip => if ip = I then some (R, t0 + m.max_ip_cache) else m.dests ip := by
    simp [frames_from_xb_step, hfam, hb]
  refine ⟨?_, ?_, ?_⟩
  · intro t ht
    have hlt : ¬(t0 + m.max_ip_cache ≤ t) := by omega
    simp [get_xb_dest_mac, hstep, hb, hlt]
  · intro t ht
    simp [get_xb_dest_mac, hstep, hb, ht]
  · intro t J hJ
    simp [get_xb_dest_mac, hb, hJ]

/-- Concrete TUN state for the C6 witness. -/
def c6m : XBTun := ⟨0xAA, false, 300, false, false, fun _ => none⟩

/-- C6 witness: learn `V4 1 → 7` at time 100 with a 300-tick TTL. -/
theorem tun_cache_learning_witness :
    (c6m.broadcast_everything = false ∧ familyDisabled c6m (.V4 1) = false) ∧
    ((∀ t, t < 100 + c6m.max_ip_cache →
      get_xb_dest_mac
        { c6m with dests := (frames_from_xb_step c6m 100 ⟨7, some (.V4 1, .V4 2), [1]⟩).1 }
        t (.V4 1) = 7) ∧
    (∀ t, 100 + c6m.max_ip_cache ≤ t →
      get_xb_dest_mac
        { c6m with dests := (frames_from_xb_step c6m 100 ⟨7, some (.V4 1, .V4 2), [1]⟩).1 }
        t (.V4 1) = XB_BROADCAST) ∧
    (∀ t J, c6m.dests J = none → get_xb_dest_mac c6m t J = XB_BROADCAST)) :=
  ⟨⟨rfl, rfl⟩, tun_cache_learning c6m 7 100 (.V4 1) (.V4 2) [1] rfl rfl⟩

/-
Radio controller startup: src/src/xb.rs; serial port: src/src/ser.rs.
-/

/-- `assert_response` from src/src/xb.rs lines 104-110: ok only when the
response equals the expected text exactly; anything else is an error. -/
def assert_response (resp expected : String) : Except String Unit :=
  if resp = expected then .ok ()
  else .error ("Unexpected response: got " ++ resp ++ ", expected " ++ expected)

/-- The step of `XB::new` (src/src/xb.rs lines 120-124) right after `+++` is
written, as a function of the lines the port yields:
`assert_response(ser.readln()?, "OK")` reads a single line and requires it to
equal `OK`; on success the remaining lines are left for the next step.
End-of-stream is an error. -/
def xb_new_await_ok (lines : List String) : Except String (List String) :=
  match lines with
  | [] => .error ("EOF")
  | l :: rest =>
    match assert_response l ("OK") with
    | .ok _ => .ok rest
    | .error e => .error e

/-- Modelled from the spec: step 3 of the startup state machine — "Read
lines, discarding any that do not end in `OK`, until one does."  The real
xbnet `XB::new` is missing from src/src/xb.rs: the file is a stale variant
(its `XB::new` takes one argument while main.rs calls `xb::XB::new` with
five, and the file does not compile as Rust), so the intended discard loop is
modelled from the spec's words. -/
def spec_await_ok : List String → Option (List String)
  | [] => none
  | l :: rest =>
    if ("OK").data.isSuffixOf l.data then some rest else spec_await_ok rest

/-- C7: the code in src/src/xb.rs fails initialization on the first non-`OK`
line after `+++` (`assert_response` errors on `NOISE`), whereas the spec's
discard-until-`OK` loop accepts the same port noise and proceeds. -/
theorem xb_new_await_ok_rejects_noise :
    xb_new_await_ok ["NOISE", "OK"] =
      .error ("Unexpected response: got NOISE, expected OK") ∧
    spec_await_ok ["NOISE", "OK"] = some [] ∧
    xb_new_await_ok ["OK", "X"] = .ok ["X"] := by
  refine ⟨rfl, ?_, rfl⟩
  decide

/-- `DataBits` from the serialport crate (the variants used here). -/
inductive DataBits where
  | Five
  | Six
  | Seven
  | Eight
deriving DecidableEq

/-- `FlowControl` from the serialport crate. -/
inductive FlowControl where
  | FlowNone
  | Software
  | Hardware
deriving DecidableEq

/-- `Parity` from the serialport crate. -/
inductive Parity where
  | ParityNone
  | Odd
  | Even
deriving DecidableEq

/-- `StopBits` from the serialport crate. -/
inductive StopBits where
  | One
  | Two
deriving DecidableEq

/-- `SerialPortSettings` from the serialport crate, with the timeout in
seconds. -/
structure SerialPortSettings where
  baud_rate : Nat
  data_bits : DataBits
  flow_control : FlowControl
  parity : Parity
  stop_bits : StopBits
  timeout_secs : Nat
deriving DecidableEq

/-- The settings literal in `XBSer::new` (src/src/ser.rs lines 40-47).  The
baud rate is hardcoded to 115200 — the adjacent source comment reads
"FIXME: make this configurable, default 9600" — with 8 data bits, hardware
flow control, no parity, one stop bit, and a 20-year (effectively infinite)
read timeout. -/
def xbser_settings : SerialPortSettings :=
  { baud_rate := 115200,
    data_bits := .Eight,
    flow_control := .Hardware,
    parity := .ParityNone,
    stop_bits := .One,
    timeout_secs := 60 * 60 * 24 * 365 * 20 }

/-- The `--serial-speed` default declared by `Opt` in src/src/main.rs lines
57-59. -/
def default_serial_speed : Nat := 9600

/-- C8: the port settings in src/src/ser.rs use a hardcoded 115200 baud rate,
not the caller-chosen `--serial-speed` (default 9600) that main.rs parses;
the remaining settings (8 data bits, hardware flow control, no parity, one
stop bit, effectively infinite timeout) match the claim. -/
theorem xbser_settings_spec :
    xbser_settings.baud_rate = 115200 ∧
    default_serial_speed = 9600 ∧
    xbser_settings.baud_rate ≠ default_serial_speed ∧
    xbser_settings.data_bits = .Eight ∧
    xbser_settings.flow_control = .Hardware ∧
    xbser_settings.parity = .ParityNone ∧
    xbser_settings.stop_bits = .One ∧
    xbser_settings.timeout_secs = 630720000 := by
  refine ⟨rfl, rfl, ?_, rfl, rfl, rfl, rfl, rfl⟩
  decide
